import Mathlib

/-!
Shallow embedding of the retry executor (`src/unnamed/part_000`, the retry
module of package `foundation`), of `ApplyJitter` (`src/foundation.go`) and of
the channel-based semaphore (`src/semaphore.go`), together with proofs of the
behavioural claims about them.

Conventions of the embedding:
* Go `error` values are `Option Err`: `none` is the nil error.
* Go `time.Duration` is an `Int` counted in nanoseconds (as in Go).
* Go `int`/`int64` arithmetic wraps at 64 bits; `wrap64` performs the wrap
  explicitly where the source can overflow.
* Go code that panics (here: `rand.Intn(n)` with `n ≤ 0`) is modelled by
  `Option`-valued functions returning `none`.
* The shared `math/rand` source is modelled by an explicit stream
  `rand : Nat → Nat` of draws; the value returned by `r.Intn(k)` for the
  `i`-th draw is `rand i % k`.
-/

namespace EstafetteFoundation

/-- Go errors visible to the retry module.  `base` is an arbitrary non-nil
error; `unrecoverable` embeds the source's `unrecoverableError` wrapper
(`type unrecoverableError struct { error }`).  The embedded error is modelled
as non-nil: the package never wraps a nil error (no constructor for the
unexported wrapper exists in the repository). -/
inductive Err where
  | base (id : Nat)
  | unrecoverable (inner : Err)
deriving DecidableEq, Repr

/-- Embeds `func unpackUnrecoverable(err error) error`: a type assertion on
`unrecoverableError` returning the embedded error when it matches, the
argument unchanged otherwise. -/
def unpackUnrecoverable : Option Err → Option Err
  | some (Err.unrecoverable inner) => some inner
  | e => e

/-- Go `time.Duration`: an `int64` count of nanoseconds. -/
abbrev Duration := Int

/-- Go `time.Millisecond` in nanoseconds. -/
def millisecond : Duration := 1000000

/-- Two's-complement wrap of signed 64-bit arithmetic. -/
def wrap64 (x : Int) : Int := (x + 2 ^ 63) % 2 ^ 64 - 2 ^ 63

/-- Go's `x << n` on a 64-bit integer with a variable shift count: a count of
64 or more yields 0, otherwise the product wraps at 64 bits. -/
def shl64 (x : Int) (n : Nat) : Int := if 64 ≤ n then 0 else wrap64 (x * 2 ^ n)

/-- Embeds `func ApplyJitter(input int) (output int)` from `src/foundation.go`:
`deviation := int(0.25 * float64(input)); return input - deviation +
r.Intn(2*deviation)`.  The float round-trip `int(0.25 * float64(input))` is
division by 4 truncated toward zero (exact for `|input| < 2^53`; for larger
or negative inputs only the sign of the result matters below, which the
truncated division preserves).  `r.Intn(k)` panics when `k ≤ 0` (`none`);
otherwise it returns the drawn value reduced into `[0, k)`. -/
def ApplyJitter (input : Int) (draw : Nat) : Option Int :=
  let deviation : Int := Int.tdiv input 4
  if 2 * deviation ≤ 0 then none
  else some (input - deviation + Int.ofNat (draw % (2 * deviation).toNat))

/-- Embeds `type DelayTypeFunc func(n uint, config *RetryConfig) time.Duration`.
Every delay strategy in the source reads only `config.DelayMillisecond` from
the config, so the embedding passes that field directly (breaking the
otherwise-recursive structure); the extra `Nat` argument is the value drawn
from the shared random source, and `none` models a panic. -/
def DelayTypeFunc := Nat → Int → Nat → Option Duration

/-- Embeds `ExponentialJitterBackoffDelay`: `ms := ApplyJitter(config.DelayMillisecond
* int(1<<n)); return time.Duration(ms) * time.Millisecond`. -/
def ExponentialJitterBackoffDelay : DelayTypeFunc := fun n delayMillisecond draw =>
  match ApplyJitter (wrap64 (delayMillisecond * shl64 1 n)) draw with
  | none => none
  | some ms => some (wrap64 (ms * millisecond))

/-- Embeds `ExponentialBackOffDelay`: `return time.Duration(config.DelayMillisecond)
* (1 << n)` — note: no `time.Millisecond` factor, so the result is a count of
nanoseconds. -/
def ExponentialBackOffDelay : DelayTypeFunc := fun n delayMillisecond _ =>
  some (wrap64 (delayMillisecond * shl64 1 n))

/-- Embeds `FixedDelay`: `return time.Duration(config.DelayMillisecond)` — again a
count of nanoseconds. -/
def FixedDelay : DelayTypeFunc := fun _ delayMillisecond _ =>
  some delayMillisecond

/-- Embeds `func AnyErrorIsRetryable(err error) bool`: non-nil errors are retryable. -/
def AnyErrorIsRetryable : Option Err → Bool := fun err => err.isSome

/-- Embeds `type RetryConfig struct` from the source. -/
structure RetryConfig where
  Attempts : Nat
  DelayMillisecond : Int
  DelayType : DelayTypeFunc
  LastErrorOnly : Bool
  IsRetryableError : Option Err → Bool

/-- Embeds `type RetryOption func(*RetryConfig)`, modelled as a config update. -/
def RetryOption := RetryConfig → RetryConfig

/-- Embeds `func Attempts(attempts uint) RetryOption`. -/
def Attempts (attempts : Nat) : RetryOption :=
  fun c => { c with Attempts := attempts }

/-- Embeds `func DelayMillisecond(delayMilliSeconds int) RetryOption`. -/
def DelayMillisecond (delayMilliSeconds : Int) : RetryOption :=
  fun c => { c with DelayMillisecond := delayMilliSeconds }

/-- Embeds `func ExponentialJitterBackoff() RetryOption`. -/
def ExponentialJitterBackoff : RetryOption :=
  fun c => { c with DelayType := ExponentialJitterBackoffDelay }

/-- Embeds `func ExponentialBackOff() RetryOption`. -/
def ExponentialBackOff : RetryOption :=
  fun c => { c with DelayType := ExponentialBackOffDelay }

/-- Embeds `func Fixed() RetryOption`. -/
def Fixed : RetryOption :=
  fun c => { c with DelayType := FixedDelay }

/-- Embeds `func AnyError() RetryOption`. -/
def AnyError : RetryOption :=
  fun c => { c with IsRetryableError := AnyErrorIsRetryable }

/-- Modelled from the spec: the option constructor `WithLastErrorOnly(bool)`
(named `LastErrorOnly(bool)` by the repository's tests) is not among the
sources under `src/`; per the spec it sets the policy's single-error flag
(`recordAllAttempts = false` when true). -/
def LastErrorOnly (b : Bool) : RetryOption :=
  fun c => { c with LastErrorOnly := b }

/-- Instrumentation of one call of `Retry`: how many times `retryableFunc`
was invoked and the durations passed to `time.Sleep`, in order. -/
structure RetryTrace where
  calls : Nat
  slept : List Duration
deriving DecidableEq, Repr

/-- The `error` value returned by `Retry`: nil, a single error
(`errorLog[lastErrIndex]` on the `LastErrorOnly` path), or the aggregate
`RetryError` slice (which is a non-nil error even when empty). -/
inductive RetryReturn where
  | nilErr
  | errVal (e : Err)
  | aggregate (log : List (Option Err))
deriving DecidableEq, Repr

/-- The defaults installed at the top of `Retry`. -/
def defaultRetryConfig : RetryConfig :=
  { Attempts := 3
    DelayMillisecond := 100
    DelayType := ExponentialJitterBackoffDelay
    LastErrorOnly := false
    IsRetryableError := AnyErrorIsRetryable }

/-- The `errorLog` allocation: `make(RetryError, config.Attempts)` when every
attempt is recorded, `make(RetryError, 1)` otherwise. -/
def initErrorLog (config : RetryConfig) : List (Option Err) :=
  if config.LastErrorOnly = false then List.replicate config.Attempts none
  else List.replicate 1 none

/-- The code after the loop: `if config.LastErrorOnly { return
errorLog[lastErrIndex] }; return errorLog`.  Reading a nil slot returns the
nil error. -/
def finishRetry (config : RetryConfig) (lastErrIndex : Nat)
    (errorLog : List (Option Err)) : RetryReturn :=
  if config.LastErrorOnly then
    match errorLog.getD lastErrIndex none with
    | none => RetryReturn.nilErr
    | some e => RetryReturn.errVal e
  else RetryReturn.aggregate errorLog

/-- The loop `for n < config.Attempts { ... }` of `Retry`.  The embedding
recurses structurally on `fuel = config.Attempts - n`; every call from
`Retry` maintains `n + fuel = config.Attempts`, so `fuel = 0` is exactly the
loop guard failing.  `f calls` is the error returned by the next invocation
of `retryableFunc`; `none` anywhere in the result models a panic. -/
def retryLoop (config : RetryConfig) (f : Nat → Option Err) (rand : Nat → Nat) :
    Nat → Nat → Nat → List (Option Err) → Nat → List Duration →
    Option (RetryTrace × RetryReturn)
  | 0, _, lastErrIndex, errorLog, calls, slept =>
      some (⟨calls, slept⟩, finishRetry config lastErrIndex errorLog)
  | fuel + 1, n, lastErrIndex, errorLog, calls, slept =>
      match f calls with
      | none => some (⟨calls + 1, slept⟩, RetryReturn.nilErr)
      | some err =>
          let errorLog := errorLog.set lastErrIndex (unpackUnrecoverable (some err))
          if n = config.Attempts - 1 then
            some (⟨calls + 1, slept⟩, finishRetry config lastErrIndex errorLog)
          else if config.IsRetryableError (some err) = false then
            some (⟨calls + 1, slept⟩, finishRetry config lastErrIndex errorLog)
          else
            match config.DelayType n config.DelayMillisecond (rand slept.length) with
            | none => none
            | some delayTime =>
                retryLoop config f rand fuel (n + 1)
                  (if config.LastErrorOnly then lastErrIndex else n + 1)
                  errorLog (calls + 1) (slept ++ [delayTime])

/-- The body of `Retry` after its options have been folded into a concrete config. -/
def retryWithConfig (f : Nat → Option Err) (config : RetryConfig)
    (rand : Nat → Nat) : Option (RetryTrace × RetryReturn) :=
  retryLoop config f rand config.Attempts 0 0 (initErrorLog config) 0 []

/-- Embeds `func Retry(retryableFunc func() error, opts ...RetryOption) error`:
defaults, option application, then the loop. -/
def Retry (f : Nat → Option Err) (opts : List RetryOption)
    (rand : Nat → Nat) : Option (RetryTrace × RetryReturn) :=
  retryWithConfig f (opts.foldl (fun c o => o c) defaultRetryConfig) rand

/-!
Embedding of the semaphore (`src/semaphore.go`).  The `semaphore` struct
holds a buffered channel `make(chan struct{}, maxConcurrency)`; its state is
the channel's capacity and the number of tokens currently buffered.
`Acquire` sends a token (blocking while the channel is full), `Release`
receives one (blocking while it is empty), and `Wait` performs `cap` sends
and then replaces the channel with a fresh empty one of the same capacity.
-/

/-- The state of the buffered channel `semaphoreChannel`. -/
structure SemState where
  cap : Nat
  len : Nat
deriving DecidableEq, Repr

/-- Embeds `func NewSemaphore(maxConcurrency int) Semaphore`: a fresh empty channel
of capacity `maxConcurrency`. -/
def NewSemaphore (maxConcurrency : Nat) : SemState :=
  { cap := maxConcurrency, len := 0 }

/-- One step of any goroutine against the semaphore: `Acquire` (a channel
send, enabled while the buffer is not full), `Release` (a channel receive,
enabled while it is not empty), or the completion of `Wait` (whose internal
`cap` sends are themselves `acquire` steps; its final effect replaces the
channel by a fresh empty one). -/
inductive SemStep : SemState → SemState → Prop where
  | acquire (s : SemState) : s.len < s.cap → SemStep s { cap := s.cap, len := s.len + 1 }
  | release (s : SemState) : 0 < s.len → SemStep s { cap := s.cap, len := s.len - 1 }
  | waitReset (s : SemState) : SemStep s { cap := s.cap, len := 0 }

/-- States reachable from `NewSemaphore N` by any interleaving of `Acquire`,
`Release` and `Wait` steps. -/
inductive SemReachable (N : Nat) : SemState → Prop where
  | init : SemReachable N (NewSemaphore N)
  | step {s t : SemState} : SemReachable N s → SemStep s t → SemReachable N t

/-- An individual operation on the buffered channel, as seen while a `Wait`
is draining the gate: `send` is a completed `Acquire` (in particular one of
`Wait`'s own), `recv` a completed `Release`. -/
inductive ChanEvent where
  | send
  | recv
deriving DecidableEq, Repr

/-- Runs a sequence of completed channel operations from a buffer holding
`len` tokens.  A send is only possible while `len < cap` and a receive only
while `0 < len` (a blocked operation cannot complete), so `none` marks an
interleaving that cannot occur; `some len` is the resulting buffer length. -/
def chanRun (cap : Nat) : Nat → List ChanEvent → Option Nat
  | len, [] => some len
  | len, ChanEvent.send :: es => if len < cap then chanRun cap (len + 1) es else none
  | len, ChanEvent.recv :: es => if 0 < len then chanRun cap (len - 1) es else none

/-- Number of sends in a sequence of channel operations. -/
def countSends : List ChanEvent → Nat
  | [] => 0
  | ChanEvent.send :: es => countSends es + 1
  | ChanEvent.recv :: es => countSends es

/-- Number of receives in a sequence of channel operations. -/
def countRecvs : List ChanEvent → Nat
  | [] => 0
  | ChanEvent.send :: es => countRecvs es
  | ChanEvent.recv :: es => countRecvs es + 1

/-- The last line of `Wait`: `s.semaphoreChannel = make(chan struct{},
cap(s.semaphoreChannel))` — a fresh empty channel of the same capacity. -/
def WaitReset (s : SemState) : SemState :=
  { cap := s.cap, len := 0 }

/-- A non-blocking `Acquire`: succeeds exactly when the buffer has room. -/
def acquireNB (s : SemState) : Option SemState :=
  if s.len < s.cap then some { cap := s.cap, len := s.len + 1 } else none

/-- Performs `count` successive non-blocking `Acquire`s. -/
def acquireAllNB : SemState → Nat → Option SemState
  | s, 0 => some s
  | s, count + 1 =>
      match acquireNB s with
      | none => none
      | some t => acquireAllNB t count

end EstafetteFoundation


namespace EstafetteFoundation

/-! ### List and unwrapping helpers -/

lemma getD_set_self {α : Type} (l : List α) (i : Nat) (a d : α) (h : i < l.length) :
    (l.set i a).getD i d = a := by
  rw [List.getD_eq_getElem?_getD, List.getElem?_set_eq_of_lt a h, Option.getD_some]

lemma getD_set_ne {α : Type} (l : List α) (i j : Nat) (a d : α) (h : i ≠ j) :
    (l.set i a).getD j d = l.getD j d := by
  rw [List.getD_eq_getElem?_getD, List.getElem?_set_ne h, ← List.getD_eq_getElem?_getD]

lemma unpackUnrecoverable_some (x : Err) :
    ∃ y, unpackUnrecoverable (some x) = some y := by
  cases x with
  | base id => exact ⟨_, rfl⟩
  | unrecoverable inner => exact ⟨_, rfl⟩

/-! ### Semaphore lemmas -/

lemma chanRun_count (es : List ChanEvent) : ∀ len m : Nat, ∀ cap : Nat, len ≤ cap →
    chanRun cap len es = some m →
    m ≤ cap ∧ len + countSends es = m + countRecvs es := by
  induction es with
  | nil =>
      intro len m cap hlen h
      simp only [chanRun] at h
      cases h
      simp [countSends, countRecvs, hlen]
  | cons e es ih =>
      intro len m cap hlen h
      cases e with
      | send =>
          simp only [chanRun] at h
          by_cases hlt : len < cap
          · rw [if_pos hlt] at h
            obtain ⟨hm, hcnt⟩ := ih (len + 1) m cap hlt h
            refine ⟨hm, ?_⟩
            simp only [countSends, countRecvs]
            omega
          · rw [if_neg hlt] at h
            cases h
      | recv =>
          simp only [chanRun] at h
          by_cases hpos : 0 < len
          · rw [if_pos hpos] at h
            obtain ⟨hm, hcnt⟩ := ih (len - 1) m cap (by omega) h
            refine ⟨hm, ?_⟩
            simp only [countSends, countRecvs]
            omega
          · rw [if_neg hpos] at h
            cases h

lemma acquireAllNB_spec (count : Nat) : ∀ s : SemState, s.len + count ≤ s.cap →
    acquireAllNB s count = some { cap := s.cap, len := s.len + count } := by
  induction count with
  | zero =>
      intro s _
      cases s
      rfl
  | succ c ih =>
      intro s h
      have hlt : s.len < s.cap := by omega
      have harith : s.len + 1 + c = s.len + (c + 1) := by omega
      simp only [acquireAllNB, acquireNB, if_pos hlt]
      rw [ih { cap := s.cap, len := s.len + 1 } (by simpa using by omega)]
      simp [harith]

/-- C2: for every semaphore created with `NewSemaphore N`, in every state
reachable by any sequence of `Acquire`, `Release` and `Wait` steps, the
number of tokens in the internal channel stays between 0 and `N` (and the
capacity stays `N`). -/
theorem semaphore_permits_invariant (N : Nat) (s : SemState)
    (h : SemReachable N s) : s.cap = N ∧ 0 ≤ s.len ∧ s.len ≤ N := by
  induction h with
  | init => exact ⟨rfl, Nat.zero_le _, Nat.zero_le _⟩
  | step hr hstep ih =>
      rename_i s t
      obtain ⟨hcap, -, hlen⟩ := ih
      cases hstep with
      | acquire hguard =>
          refine ⟨hcap, Nat.zero_le _, ?_⟩
          show s.len + 1 ≤ N
          omega
      | release hguard =>
          refine ⟨hcap, Nat.zero_le _, ?_⟩
          show s.len - 1 ≤ N
          omega
      | waitReset =>
          exact ⟨hcap, Nat.zero_le _, Nat.zero_le _⟩

/-- Witness for C2: the state reached from `NewSemaphore 3` by one `Acquire`
satisfies the invariant. -/
theorem semaphore_permits_invariant_witness :
    (SemState.mk 3 1).cap = 3 ∧ 0 ≤ (SemState.mk 3 1).len ∧ (SemState.mk 3 1).len ≤ 3 :=
  semaphore_permits_invariant 3 (SemState.mk 3 1)
    (SemReachable.step SemReachable.init (SemStep.acquire (NewSemaphore 3) (by decide)))

/-- C3: a `Wait` that completes from a gate with `k` outstanding permits —
i.e. a valid interleaving `es` of completed channel operations containing
`Wait`'s `N` sequential sends — contains at least `k` receives (every
outstanding permit was released before `Wait` returned); afterwards the
channel is reinitialized to an empty one of capacity `N`, from which `N`
fresh `Acquire` calls all succeed without blocking. -/
theorem semaphore_wait_drains_and_resets (N k m : Nat) (es : List ChanEvent)
    (hk : k ≤ N) (hsends : countSends es = N)
    (hrun : chanRun N k es = some m) :
    k ≤ countRecvs es ∧
    WaitReset { cap := N, len := m } = { cap := N, len := 0 } ∧
    acquireAllNB (WaitReset { cap := N, len := m }) N = some { cap := N, len := N } := by
  obtain ⟨hm, hcount⟩ := chanRun_count es k m N hk hrun
  refine ⟨by omega, rfl, ?_⟩
  have h := acquireAllNB_spec N (WaitReset { cap := N, len := m }) (by simp [WaitReset])
  simpa [WaitReset] using h

/-- Witness for C3: capacity 2, one permit outstanding, trace
send-recv-send. -/
theorem semaphore_wait_drains_and_resets_witness :
    1 ≤ countRecvs [ChanEvent.send, ChanEvent.recv, ChanEvent.send] ∧
    WaitReset { cap := 2, len := 2 } = { cap := 2, len := 0 } ∧
    acquireAllNB (WaitReset { cap := 2, len := 2 }) 2 = some { cap := 2, len := 2 } :=
  semaphore_wait_drains_and_resets 2 1 2 [ChanEvent.send, ChanEvent.recv, ChanEvent.send]
    (by decide) (by decide) (by decide)

end EstafetteFoundation

namespace EstafetteFoundation

/-! ### Arithmetic helpers for the 64-bit model -/

lemma wrap64_eq_self (x : Int) (h1 : -(2 ^ 63) ≤ x) (h2 : x < 2 ^ 63) :
    wrap64 x = x := by
  have e63 : (2:Int) ^ 63 = 9223372036854775808 := by norm_num
  have e64 : (2:Int) ^ 64 = 18446744073709551616 := by norm_num
  rw [wrap64, Int.emod_eq_of_lt (by omega) (by omega)]
  omega

/-! ### Retry loop lemmas -/

lemma retryLoop_ne_none (config : RetryConfig) (f : Nat → Option Err) (rand : Nat → Nat)
    (hdelay : ∀ a b, config.DelayType a config.DelayMillisecond b ≠ none) :
    ∀ fuel n lastErrIndex errorLog calls slept,
      retryLoop config f rand fuel n lastErrIndex errorLog calls slept ≠ none := by
  intro fuel
  induction fuel with
  | zero =>
      intro n lastErrIndex errorLog calls slept
      simp [retryLoop]
  | succ fuel ih =>
      intro n lastErrIndex errorLog calls slept
      simp only [retryLoop]
      cases hf : f calls with
      | none => simp
      | some err =>
          by_cases h1 : n = config.Attempts - 1
          · simp [h1]
          · by_cases h2 : config.IsRetryableError (some err) = false
            · simp [h1, h2]
            · cases hd : config.DelayType n config.DelayMillisecond (rand slept.length) with
              | none => exact absurd hd (hdelay _ _)
              | some delayTime =>
                  simp [h1, h2]
                  exact ih _ _ _ _ _

/-- C9 (amended): `Retry` never panics provided the configured delay
strategy is defined (does not panic) for the policy's `DelayMillisecond` at
every attempt index; failures are then surfaced only through the returned
value.  (As stated the claim is false: the default exponential-jitter
strategy makes `rand.Intn` panic when the scaled delay is below 4 or
overflows, see the counterexample.) -/
theorem retry_never_panics_of_delay_defined (config : RetryConfig)
    (f : Nat → Option Err) (rand : Nat → Nat)
    (hdelay : ∀ a b, config.DelayType a config.DelayMillisecond b ≠ none) :
    retryWithConfig f config rand ≠ none :=
  retryLoop_ne_none config f rand hdelay _ _ _ _ _ _

/-- Witness for C9 (amended): a fixed-delay policy, an always-failing
operation. -/
theorem retry_never_panics_of_delay_defined_witness :
    retryWithConfig (fun _ => some (Err.base 0))
      { Attempts := 5, DelayMillisecond := 10, DelayType := FixedDelay,
        LastErrorOnly := false, IsRetryableError := AnyErrorIsRetryable }
      (fun _ => 0) ≠ none :=
  retry_never_panics_of_delay_defined _ _ _ (fun a b => by simp [FixedDelay])

/-- C9 counterexample: with `Attempts(3)` and `DelayMillisecond(1)` — and the
default exponential-jitter strategy — the first delay computation calls
`rand.Intn(0)` (the truncated deviation of a 1ms scaled delay is 0), which
panics: `Retry` crashes instead of surfacing an error value. -/
theorem retry_panics_on_small_jitter_delay :
    Retry (fun _ => some (Err.base 0)) [Attempts 3, DelayMillisecond 1]
      (fun _ => 0) = none := by rfl

end EstafetteFoundation

namespace EstafetteFoundation

lemma retryLoop_allFail_recordAll (config : RetryConfig) (f : Nat → Option Err)
    (rand : Nat → Nat) (e : Nat → Err)
    (hLEO : config.LastErrorOnly = false)
    (hf : ∀ m, f m = some (e m))
    (hpred : ∀ m, config.IsRetryableError (some (e m)) = true)
    (hdelay : ∀ a b, a + 1 < config.Attempts →
      config.DelayType a config.DelayMillisecond b ≠ none) :
    ∀ fuel n errorLog calls slept,
      0 < fuel → n + fuel = config.Attempts → errorLog.length = config.Attempts →
      ∃ (t : RetryTrace) (log : List (Option Err)),
        retryLoop config f rand fuel n n errorLog calls slept
          = some (t, RetryReturn.aggregate log) ∧
        t.calls = calls + fuel ∧
        t.slept.length = slept.length + (fuel - 1) ∧
        log.length = config.Attempts ∧
        (∀ i, i < n → log.getD i none = errorLog.getD i none) ∧
        (∀ i, n ≤ i → i < config.Attempts →
          log.getD i none = unpackUnrecoverable (some (e (calls + i - n)))) := by
  intro fuel
  induction fuel with
  | zero =>
      intro n errorLog calls slept hpos
      exact absurd hpos (by omega)
  | succ fuel ih =>
      intro n errorLog calls slept hpos hfuel hlen
      have hnlt : n < errorLog.length := by omega
      by_cases hn : n = config.Attempts - 1
      · have hfz : fuel = 0 := by omega
        refine ⟨⟨calls + 1, slept⟩,
          errorLog.set n (unpackUnrecoverable (some (e calls))), ?_,
          by show calls + 1 = calls + (fuel + 1); omega, ?_, ?_, ?_, ?_⟩
        · simp [retryLoop, hf, hn, finishRetry, hLEO]
        · show slept.length = slept.length + (fuel + 1 - 1)
          omega
        · simp [hlen]
        · intro i hi
          exact getD_set_ne errorLog n i _ none (by omega)
        · intro i hni hilt
          have hin : i = n := by omega
          subst hin
          rw [getD_set_self errorLog i _ none hnlt]
          have harith : calls + i - i = calls := by omega
          rw [harith]
      · have hfpos : 0 < fuel := by omega
        have hr : ¬ config.IsRetryableError (some (e calls)) = false := by
          simp [hpred calls]
        cases hd : config.DelayType n config.DelayMillisecond (rand slept.length) with
        | none => exact absurd hd (hdelay _ _ (by omega))
        | some delayTime =>
            obtain ⟨t, log, hres, hcalls, hsl, hlg, hagree, hwritten⟩ :=
              ih (n + 1) (errorLog.set n (unpackUnrecoverable (some (e calls))))
                (calls + 1) (slept ++ [delayTime]) hfpos (by omega) (by simp [hlen])
            refine ⟨t, log, ?_, by omega, ?_, hlg, ?_, ?_⟩
            · simp only [retryLoop, hf, hn, hr, hd, hLEO]
              simp [hn, hr]
              exact hres
            · rw [List.length_append] at hsl
              simp only [List.length_cons, List.length_nil] at hsl
              omega
            · intro i hi
              rw [hagree i (by omega)]
              exact getD_set_ne errorLog n i _ none (by omega)
            · intro i hni hilt
              by_cases hin : i = n
              · subst hin
                rw [hagree i (by omega), getD_set_self errorLog i _ none hnlt]
                have harith : calls + i - i = calls := by omega
                rw [harith]
              · rw [hwritten i (by omega) hilt]
                have harith : calls + 1 + i - (n + 1) = calls + i - n := by omega
                rw [harith]

lemma retryLoop_allFail_lastOnly (config : RetryConfig) (f : Nat → Option Err)
    (rand : Nat → Nat) (e : Nat → Err)
    (hLEO : config.LastErrorOnly = true)
    (hf : ∀ m, f m = some (e m))
    (hdelay : ∀ a b, a + 1 < config.Attempts →
      config.DelayType a config.DelayMillisecond b ≠ none) :
    ∀ fuel n errorLog calls slept,
      0 < fuel → n + fuel = config.Attempts → errorLog.length = 1 →
      ∃ (t : RetryTrace) (y : Err),
        retryLoop config f rand fuel n 0 errorLog calls slept
          = some (t, RetryReturn.errVal y) ∧
        some y = unpackUnrecoverable (some (e (t.calls - 1))) ∧
        calls + 1 ≤ t.calls ∧ t.calls ≤ calls + fuel ∧
        ((∀ m, config.IsRetryableError (some (e m)) = true) → t.calls = calls + fuel) := by
  intro fuel
  induction fuel with
  | zero =>
      intro n errorLog calls slept hpos
      exact absurd hpos (by omega)
  | succ fuel ih =>
      intro n errorLog calls slept hpos hfuel hlen
      obtain ⟨y, hy⟩ := unpackUnrecoverable_some (e calls)
      have h0lt : (0 : Nat) < errorLog.length := by omega
      by_cases hn : n = config.Attempts - 1
      · refine ⟨⟨calls + 1, slept⟩, y, ?_, ?_,
          by show calls + 1 ≤ calls + 1; omega,
          by show calls + 1 ≤ calls + (fuel + 1); omega, ?_⟩
        · simp [retryLoop, hf, hn, finishRetry, hLEO, hy]
          rw [List.getElem?_set_eq_of_lt _ h0lt]
          rfl
        · simpa using hy.symm
        · intro _
          show calls + 1 = calls + (fuel + 1)
          omega
      · by_cases hr : config.IsRetryableError (some (e calls)) = false
        · refine ⟨⟨calls + 1, slept⟩, y, ?_, ?_,
            by show calls + 1 ≤ calls + 1; omega,
            by show calls + 1 ≤ calls + (fuel + 1); omega, ?_⟩
          · simp [retryLoop, hf, hn, hr, finishRetry, hLEO, hy]
            rw [List.getElem?_set_eq_of_lt _ h0lt]
            rfl
          · simpa using hy.symm
          · intro hall
            exact absurd (hall calls) (by simp [hr])

        · cases hd : config.DelayType n config.DelayMillisecond (rand slept.length) with
          | none => exact absurd hd (hdelay _ _ (by omega))
          | some delayTime =>
              obtain ⟨t, y', hres, hy', hlb, hub, hcnt⟩ :=
                ih (n + 1) (errorLog.set 0 (unpackUnrecoverable (some (e calls))))
                  (calls + 1) (slept ++ [delayTime]) (by omega) (by omega) (by simp [hlen])
              refine ⟨t, y', ?_, hy', by omega, by omega, ?_⟩
              · simp only [retryLoop, hf, hn, hr, hd, hLEO]
                simp [hn, hr]
                exact hres
              · intro hall
                rw [hcnt hall]
                omega

end EstafetteFoundation

namespace EstafetteFoundation

lemma finishRetry_ne_nilErr (config : RetryConfig) (i : Nat)
    (log : List (Option Err)) (y : Err) (h : log.getD i none = some y) :
    finishRetry config i log ≠ RetryReturn.nilErr := by
  rw [List.getD_eq_getElem?_getD] at h
  unfold finishRetry
  cases hL : config.LastErrorOnly
  · simp
  · simp [h]

/-- C1 (amended): for every policy with `attempts = k ≥ 1` and the default
retry predicate whose delay strategy is defined (non-panicking) at every
attempt, an operation that fails on every invocation is invoked exactly `k`
times and a non-nil error is returned.  (As literally stated — over all such
policies, including the default jitter strategy — the claim fails: see the
counterexample, where the delay computation overflows and panics.) -/
theorem retry_allFail_invokes_attempts (config : RetryConfig)
    (f : Nat → Option Err) (rand : Nat → Nat) (e : Nat → Err)
    (hk : 1 ≤ config.Attempts)
    (hpred : config.IsRetryableError = AnyErrorIsRetryable)
    (hf : ∀ m, f m = some (e m))
    (hdelay : ∀ a b, config.DelayType a config.DelayMillisecond b ≠ none) :
    ∃ (t : RetryTrace) (r : RetryReturn),
      retryWithConfig f config rand = some (t, r) ∧
      t.calls = config.Attempts ∧ r ≠ RetryReturn.nilErr := by
  have hptrue : ∀ m, config.IsRetryableError (some (e m)) = true := by
    intro m
    rw [hpred]
    rfl
  cases hLEO : config.LastErrorOnly with
  | false =>
      obtain ⟨t, log, hres, hcalls, -, -, -, -⟩ :=
        retryLoop_allFail_recordAll config f rand e hLEO hf hptrue
          (fun a b _ => hdelay a b)
          config.Attempts 0 (initErrorLog config) 0 [] hk (by omega)
          (by simp [initErrorLog, hLEO])
      refine ⟨t, RetryReturn.aggregate log, ?_, by simpa using hcalls, by simp⟩
      simpa [retryWithConfig] using hres
  | true =>
      obtain ⟨t, y, hres, -, -, -, hcnt⟩ :=
        retryLoop_allFail_lastOnly config f rand e hLEO hf
          (fun a b _ => hdelay a b)
          config.Attempts 0 (initErrorLog config) 0 [] hk (by omega)
          (by simp [initErrorLog, hLEO])
      refine ⟨t, RetryReturn.errVal y, ?_, by simpa using hcnt hptrue, by simp⟩
      simpa [retryWithConfig] using hres

/-- Witness for C1 (amended): fixed delay, two attempts, always failing. -/
theorem retry_allFail_invokes_attempts_witness :
    ∃ (t : RetryTrace) (r : RetryReturn),
      retryWithConfig (fun m => some (Err.base m))
        { Attempts := 2, DelayMillisecond := 7, DelayType := FixedDelay,
          LastErrorOnly := false, IsRetryableError := AnyErrorIsRetryable }
        (fun _ => 0) = some (t, r) ∧
      t.calls = 2 ∧ r ≠ RetryReturn.nilErr :=
  retry_allFail_invokes_attempts _ _ _ Err.base (by decide) rfl (fun m => rfl)
    (fun a b => by simp [FixedDelay])

/-- C1 counterexample: a policy with `Attempts(59)` and every other option at
its default (default predicate, default 100ms base delay, default
exponential-jitter strategy) invokes the always-failing operation 58 times
and then panics — the 58th delay computation `100·2^57` overflows int64,
the truncated deviation becomes negative, and `rand.Intn` is called with a
non-positive argument.  The operation is not invoked 59 times and no error
is returned. -/
theorem retry_attempts59_default_panics :
    Retry (fun _ => some (Err.base 0)) [Attempts 59] (fun _ => 0) = none ∧
    ¬ ∃ (t : RetryTrace) (r : RetryReturn),
        Retry (fun _ => some (Err.base 0)) [Attempts 59] (fun _ => 0)
          = some (t, r) := by
  have h : Retry (fun _ => some (Err.base 0)) [Attempts 59] (fun _ => 0) = none := by
    rfl
  refine ⟨h, ?_⟩
  rintro ⟨t, r, hsome⟩
  rw [h] at hsome
  cases hsome

/-- C4 counterexample: with `Attempts(2)`, fixed delay and the default
predicate, an operation always returning an error wrapped in
`unrecoverableError` is invoked twice and one delay is slept — the wrapper
does not terminate the loop (the record does hold the unwrapped error). -/
theorem retry_unrecoverable_does_not_stop_loop :
    Retry (fun _ => some (Err.unrecoverable (Err.base 7)))
        [Attempts 2, Fixed, DelayMillisecond 5] (fun _ => 0)
      = some (⟨2, [5]⟩,
          RetryReturn.aggregate [some (Err.base 7), some (Err.base 7)]) ∧
    ¬ ∃ (t : RetryTrace) (r : RetryReturn),
        Retry (fun _ => some (Err.unrecoverable (Err.base 7)))
            [Attempts 2, Fixed, DelayMillisecond 5] (fun _ => 0) = some (t, r) ∧
        t.calls = 1 ∧ t.slept = [] := by
  have h : Retry (fun _ => some (Err.unrecoverable (Err.base 7)))
      [Attempts 2, Fixed, DelayMillisecond 5] (fun _ => 0)
      = some (⟨2, [5]⟩,
          RetryReturn.aggregate [some (Err.base 7), some (Err.base 7)]) := by
    rfl
  refine ⟨h, ?_⟩
  rintro ⟨t, r, hsome, hcalls, -⟩
  rw [h] at hsome
  cases hsome
  exact absurd hcalls (by decide)

/-- Defined-ness of the default jitter strategy at attempt index 0 with the
default 100ms base delay, for every drawn value: the scaled delay is 100,
its truncated deviation 25, so `rand.Intn(50)` does not panic.  (Used by
witnesses to discharge their delay hypothesis for default-jitter policies.) -/
lemma jitter_defined_at_d100_index0 (b : Nat) :
    ExponentialJitterBackoffDelay 0 100 b ≠ none := by
  intro hnone
  have h1 : wrap64 ((100 : Int) * shl64 1 0) = 100 := by decide
  have ht : Int.tdiv (100 : Int) 4 = 25 := by decide
  have happ : ApplyJitter 100 b = some (75 + Int.ofNat (b % 50)) := by
    show (if 2 * Int.tdiv (100 : Int) 4 ≤ 0 then none
      else some (100 - Int.tdiv (100 : Int) 4
        + Int.ofNat (b % (2 * Int.tdiv (100 : Int) 4).toNat)))
      = some (75 + Int.ofNat (b % 50))
    rw [ht]
    norm_num
  simp only [ExponentialJitterBackoffDelay] at hnone
  rw [h1, happ] at hnone
  cases hnone

/-- C4 (amended): when the first failure is wrapped in the unrecoverable
wrapper, the error stored in the record is the unwrapped underlying error,
not the wrapper — but the loop does *not* terminate early: under the default
predicate (any non-nil error is retryable) the wrapped error is retried like
any other failure, so — provided the delay strategy is defined
(non-panicking) at every attempt index that is actually slept, which holds
for the default jitter strategy whenever `4 ≤ DelayMillisecond·2^n < 2^63`
at those indices — an always-failing operation still runs all `k` attempts
and at least one delay is slept. -/
theorem retry_unrecoverable_unwrapped_but_retried (config : RetryConfig)
    (f : Nat → Option Err) (rand : Nat → Nat) (e : Nat → Err) (inner : Err)
    (hpred : config.IsRetryableError = AnyErrorIsRetryable)
    (hLEO : config.LastErrorOnly = false)
    (hk : 2 ≤ config.Attempts)
    (hf : ∀ m, f m = some (e m))
    (h0 : e 0 = Err.unrecoverable inner)
    (hdelay : ∀ a b, a + 1 < config.Attempts →
      config.DelayType a config.DelayMillisecond b ≠ none) :
    ∃ (t : RetryTrace) (log : List (Option Err)),
      retryWithConfig f config rand = some (t, RetryReturn.aggregate log) ∧
      t.calls = config.Attempts ∧
      1 ≤ t.slept.length ∧
      log.getD 0 none = some inner := by
  have hptrue : ∀ m, config.IsRetryableError (some (e m)) = true := by
    intro m
    rw [hpred]
    rfl
  obtain ⟨t, log, hres, hcalls, hslept, -, -, hwritten⟩ :=
    retryLoop_allFail_recordAll config f rand e hLEO hf hptrue hdelay
      config.Attempts 0 (initErrorLog config) 0 [] (by omega) (by omega)
      (by simp [initErrorLog, hLEO])
  refine ⟨t, log, by simpa [retryWithConfig] using hres, by simpa using hcalls, ?_, ?_⟩
  · rw [hslept]
    simp only [List.length_nil]
    omega
  · have hw := hwritten 0 (by omega) (by omega)
    rw [hw]
    norm_num
    rw [h0]
    rfl

/-- Witness for C4 (amended): a policy differing from the defaults only in
`Attempts(2)` — default exponential-jitter strategy, default 100ms base
delay, default predicate — with every invocation failing with the wrapped
error.  The delay hypothesis is discharged for the default jitter strategy
itself. -/
theorem retry_unrecoverable_unwrapped_but_retried_witness :
    ∃ (t : RetryTrace) (log : List (Option Err)),
      retryWithConfig (fun _ => some (Err.unrecoverable (Err.base 7)))
        { Attempts := 2, DelayMillisecond := 100,
          DelayType := ExponentialJitterBackoffDelay,
          LastErrorOnly := false, IsRetryableError := AnyErrorIsRetryable }
        (fun _ => 0) = some (t, RetryReturn.aggregate log) ∧
      t.calls = 2 ∧ 1 ≤ t.slept.length ∧ log.getD 0 none = some (Err.base 7) :=
  retry_unrecoverable_unwrapped_but_retried _ _ _
    (fun _ => Err.unrecoverable (Err.base 7)) (Err.base 7) rfl rfl (by decide)
    (fun m => rfl) rfl
    (fun a b h => by
      have h2 : a + 1 < 2 := h
      have ha : a = 0 := by omega
      subst ha
      exact jitter_defined_at_d100_index0 b)

end EstafetteFoundation

namespace EstafetteFoundation

/-- C5: if the policy's `IsRetryableError` predicate rejects the error of
the first invocation, `Retry` invokes the operation exactly once, sleeps no
delay, and returns a non-nil error — regardless of how many attempts were
configured. -/
theorem retry_nonretryable_stops_after_first (config : RetryConfig)
    (f : Nat → Option Err) (rand : Nat → Nat) (e0 : Err)
    (hk : 1 ≤ config.Attempts)
    (hf : f 0 = some e0)
    (hpred : config.IsRetryableError (some e0) = false) :
    ∃ (t : RetryTrace) (r : RetryReturn),
      retryWithConfig f config rand = some (t, r) ∧
      t.calls = 1 ∧ t.slept = [] ∧ r ≠ RetryReturn.nilErr := by
  obtain ⟨y, hy⟩ := unpackUnrecoverable_some e0
  have hinit : 0 < (initErrorLog config).length := by
    cases hLEO : config.LastErrorOnly <;> simp [initErrorLog, hLEO]
    omega
  have hgetD : ((initErrorLog config).set 0 (unpackUnrecoverable (some e0))).getD 0 none
      = some y := by
    rw [getD_set_self _ 0 _ none hinit, hy]
  cases hA : config.Attempts with
  | zero => omega
  | succ k =>
      refine ⟨⟨1, []⟩,
        finishRetry config 0 ((initErrorLog config).set 0 (unpackUnrecoverable (some e0))),
        ?_, rfl, rfl, finishRetry_ne_nilErr config 0 _ y hgetD⟩
      simp only [retryWithConfig, hA, retryLoop, hf]
      by_cases h0 : (0 : Nat) = k + 1 - 1
      · rw [if_pos h0]
      · rw [if_neg h0, if_pos hpred]

/-- Witness for C5: five configured attempts, predicate rejecting the first
error. -/
theorem retry_nonretryable_stops_after_first_witness :
    ∃ (t : RetryTrace) (r : RetryReturn),
      retryWithConfig (fun _ => some (Err.base 9))
        { Attempts := 5, DelayMillisecond := 10, DelayType := FixedDelay,
          LastErrorOnly := false, IsRetryableError := fun _ => false }
        (fun _ => 0) = some (t, r) ∧
      t.calls = 1 ∧ t.slept = [] ∧ r ≠ RetryReturn.nilErr :=
  retry_nonretryable_stops_after_first _ _ _ (Err.base 9) (by decide) rfl rfl

/-- C6 (amended): with `LastErrorOnly = true` and an operation failing on
every invocation, provided the delay strategy is defined (non-panicking) at
every attempt index that is actually slept — true of the default jitter
strategy whenever `4 ≤ DelayMillisecond·2^n < 2^63` at those indices, and of
the fixed and exponential strategies always — `Retry` returns the error of
the last invocation directly, as an `errVal`, not wrapped in the aggregate
`RetryError`, with any unrecoverable wrapper stripped before it was stored.
(As literally stated the claim fails: with the default jitter strategy and
`DelayMillisecond(1)` the delay computation panics instead of returning the
last error, see the counterexample.) -/
theorem retry_lastErrorOnly_returns_unwrapped_last (config : RetryConfig)
    (f : Nat → Option Err) (rand : Nat → Nat) (e : Nat → Err)
    (hLEO : config.LastErrorOnly = true)
    (hk : 1 ≤ config.Attempts)
    (hf : ∀ m, f m = some (e m))
    (hdelay : ∀ a b, a + 1 < config.Attempts →
      config.DelayType a config.DelayMillisecond b ≠ none) :
    ∃ (t : RetryTrace) (y : Err),
      retryWithConfig f config rand = some (t, RetryReturn.errVal y) ∧
      1 ≤ t.calls ∧ t.calls ≤ config.Attempts ∧
      some y = unpackUnrecoverable (some (e (t.calls - 1))) := by
  obtain ⟨t, y, hres, hy, hlb, hub, -⟩ :=
    retryLoop_allFail_lastOnly config f rand e hLEO hf hdelay
      config.Attempts 0 (initErrorLog config) 0 [] hk (by omega)
      (by simp [initErrorLog, hLEO])
  exact ⟨t, y, by simpa [retryWithConfig] using hres, by omega, by omega, hy⟩

/-- Witness for C6 (amended): a last-error-only policy with the *default*
exponential-jitter strategy and default 100ms base delay, two attempts, each
failing with a distinct error; the delay hypothesis is discharged for the
default jitter strategy itself. -/
theorem retry_lastErrorOnly_returns_unwrapped_last_witness :
    ∃ (t : RetryTrace) (y : Err),
      retryWithConfig (fun m => some (Err.base m))
        { Attempts := 2, DelayMillisecond := 100,
          DelayType := ExponentialJitterBackoffDelay,
          LastErrorOnly := true, IsRetryableError := AnyErrorIsRetryable }
        (fun _ => 0) = some (t, RetryReturn.errVal y) ∧
      1 ≤ t.calls ∧ t.calls ≤ 2 ∧
      some y = unpackUnrecoverable (some (Err.base (t.calls - 1))) :=
  retry_lastErrorOnly_returns_unwrapped_last _ _ _ Err.base rfl (by decide)
    (fun m => rfl)
    (fun a b h => by
      have h2 : a + 1 < 2 := h
      have ha : a = 0 := by omega
      subst ha
      exact jitter_defined_at_d100_index0 b)

/-- C6 counterexample: with `LastErrorOnly(true)`, `Attempts(2)` and
`DelayMillisecond(1)` — the strategy left at its default exponential jitter
— the always-failing operation makes the first delay computation call
`rand.Intn(0)` (the truncated deviation of a scaled delay of 1 is 0), which
panics: `Retry` crashes instead of returning the last invocation's error. -/
theorem retry_lastErrorOnly_jitter_panics :
    Retry (fun _ => some (Err.base 0))
      [Attempts 2, DelayMillisecond 1, LastErrorOnly true] (fun _ => 0) = none ∧
    ¬ ∃ (t : RetryTrace) (y : Err),
        Retry (fun _ => some (Err.base 0))
          [Attempts 2, DelayMillisecond 1, LastErrorOnly true] (fun _ => 0)
          = some (t, RetryReturn.errVal y) := by
  have h : Retry (fun _ => some (Err.base 0))
      [Attempts 2, DelayMillisecond 1, LastErrorOnly true] (fun _ => 0) = none := by
    rfl
  refine ⟨h, ?_⟩
  rintro ⟨t, y, hsome⟩
  rw [h] at hsome
  cases hsome

/-- C10 (amended): with `attempts` configured to 0 or 1 the operation is
invoked exactly `attempts` times: once for `Attempts(1)`, but *zero* times
for `Attempts(0)` — the loop guard fails immediately and `Retry` returns
without invoking the operation (the claim's "at least once" fails at 0, see
the counterexample). -/
theorem retry_low_attempts_invocation_count (config : RetryConfig)
    (f : Nat → Option Err) (rand : Nat → Nat)
    (h : config.Attempts ≤ 1) :
    ∃ (t : RetryTrace) (r : RetryReturn),
      retryWithConfig f config rand = some (t, r) ∧ t.calls = config.Attempts := by
  cases hA : config.Attempts with
  | zero =>
      refine ⟨⟨0, []⟩, finishRetry config 0 (initErrorLog config), ?_, rfl⟩
      simp only [retryWithConfig, hA, retryLoop]
  | succ k =>
      have hk0 : k = 0 := by omega
      subst hk0
      cases hf0 : f 0 with
      | none =>
          refine ⟨⟨1, []⟩, RetryReturn.nilErr, ?_, rfl⟩
          simp only [retryWithConfig, hA, retryLoop, hf0]
      | some err =>
          refine ⟨⟨1, []⟩,
            finishRetry config 0
              ((initErrorLog config).set 0 (unpackUnrecoverable (some err))),
            ?_, rfl⟩
          simp only [retryWithConfig, hA, retryLoop, hf0]
          rw [if_pos trivial]

/-- Witness for C10 (amended): a single-attempt policy invokes the operation
once. -/
theorem retry_low_attempts_invocation_count_witness :
    ∃ (t : RetryTrace) (r : RetryReturn),
      retryWithConfig (fun _ => some (Err.base 3))
        { Attempts := 1, DelayMillisecond := 100,
          DelayType := ExponentialJitterBackoffDelay,
          LastErrorOnly := false, IsRetryableError := AnyErrorIsRetryable }
        (fun _ => 0) = some (t, r) ∧ t.calls = 1 :=
  retry_low_attempts_invocation_count _ _ _ (by decide)

/-- C10 counterexample: with `Attempts(0)` the loop never executes — `Retry`
returns (an empty aggregate, a non-nil error value in Go) after *zero*
invocations of the operation, contradicting "does not return without any
invocation". -/
theorem retry_attempts0_returns_without_invocation :
    Retry (fun _ => some (Err.base 0)) [Attempts 0] (fun _ => 0)
      = some (⟨0, []⟩, RetryReturn.aggregate []) := by rfl

end EstafetteFoundation

namespace EstafetteFoundation

/-- C7: evaluation of the exponential backoff strategy at the failing input
(the default `DelayMillisecond = 100`, attempt 0).  The code computes
`time.Duration(config.DelayMillisecond) * (1 << n)` without the
`time.Millisecond` factor, so the returned duration is `d·2^n` *nanoseconds*
— here 100ns — not the `d·2^n` milliseconds (`100 * 10^6` ns) that the claim
and the `DelayMillisecond` documentation ("default is 100ms") require. -/
theorem exponentialBackOff_returns_nanoseconds :
    ExponentialBackOffDelay 0 100 0 = some 100 ∧
    (100 : Duration) * millisecond = 100000000 ∧
    ExponentialBackOffDelay 0 100 0 ≠ some (100 * millisecond) := by
  refine ⟨by decide, by decide, ?_⟩
  intro h
  have h0 : ExponentialBackOffDelay 0 100 0 = some 100 := by decide
  rw [h0] at h
  simp [millisecond] at h

/-- C8 (amended): for base delay `d` and attempt `n` with
`4 ≤ d·2^n ≤ 2^42` — so the truncated deviation is at least 1 and no 64-bit
or float step overflows — every drawn jitter delay equals `ms` milliseconds
for an `ms` with `0.75·d·2^n ≤ ms < 1.25·d·2^n` (stated integrally as
`3·(d·2^n) ≤ 4·ms < 5·(d·2^n)`).  (As literally stated — for every `d`, `n`
— the claim fails: for `d·2^n < 4` the strategy panics in `rand.Intn`
instead of returning a delay, see the counterexample.) -/
theorem jitter_delay_within_quarter_bounds (d : Int) (n : Nat) (draw : Nat)
    (h4 : 4 ≤ d * 2 ^ n) (hbound : d * 2 ^ n ≤ 2 ^ 42) :
    ∃ ms : Int,
      ExponentialJitterBackoffDelay n d draw = some (ms * millisecond) ∧
      3 * (d * 2 ^ n) ≤ 4 * ms ∧ 4 * ms < 5 * (d * 2 ^ n) := by
  have hmil : millisecond = 1000000 := rfl
  have h2n : (0 : Int) < 2 ^ n := pow_pos (by norm_num) n
  have hd1 : 1 ≤ d := by nlinarith
  have hn42 : n ≤ 42 := by
    have h1 : (2 : Int) ^ n ≤ d * 2 ^ n := le_mul_of_one_le_left h2n.le hd1
    exact (pow_le_pow_iff_right₀ (by norm_num)).mp (le_trans h1 hbound)
  have hn64 : ¬ 64 ≤ n := by omega
  set x := d * 2 ^ n with hx
  have hx63 : x < 2 ^ 63 := by
    calc x ≤ 2 ^ 42 := hbound
    _ < 2 ^ 63 := by norm_num
  have hxlb : -(2 ^ 63) ≤ x := by
    calc (-(2 ^ 63) : Int) ≤ 4 := by norm_num
    _ ≤ x := h4
  have hshl : shl64 1 n = 2 ^ n := by
    rw [shl64, if_neg hn64, one_mul]
    refine wrap64_eq_self _ (by nlinarith) ?_
    calc (2 : Int) ^ n ≤ 2 ^ 42 := (pow_le_pow_iff_right₀ (by norm_num)).mpr hn42
    _ < 2 ^ 63 := by norm_num
  have hwrapx : wrap64 (d * shl64 1 n) = x := by
    rw [hshl]
    exact wrap64_eq_self x hxlb hx63
  have hxnn : (0 : Int) ≤ x := by linarith
  have hdiv : Int.tdiv x 4 = x / 4 := Int.tdiv_eq_ediv hxnn (by norm_num)
  set dev := x / 4 with hdev
  have hdev1 : 1 ≤ dev := (Int.le_ediv_iff_mul_le (by norm_num)).mpr (by linarith)
  have hdev4 : 4 * dev ≤ x := by
    have h := Int.ediv_mul_le x (show (4 : Int) ≠ 0 by norm_num)
    rw [hdev]
    linarith
  have hpos2dev : ¬ 2 * dev ≤ 0 := by omega
  have htoNat : (((2 * dev).toNat : Int)) = 2 * dev := Int.toNat_of_nonneg (by omega)
  set j : Int := Int.ofNat (draw % (2 * dev).toNat) with hj
  have hj0 : 0 ≤ j := by
    rw [hj]
    exact Int.ofNat_nonneg _
  have htpos : 0 < (2 * dev).toNat := by omega
  have hjlt : j < 2 * dev := by
    rw [hj]
    calc Int.ofNat (draw % (2 * dev).toNat)
        < Int.ofNat ((2 * dev).toNat) := Int.ofNat_lt.mpr (Nat.mod_lt _ htpos)
    _ = 2 * dev := htoNat
  have happ : ApplyJitter x draw = some (x - dev + j) := by
    show (if 2 * Int.tdiv x 4 ≤ 0 then none
      else some (x - Int.tdiv x 4 + Int.ofNat (draw % (2 * Int.tdiv x 4).toNat)))
      = some (x - dev + j)
    rw [hdiv, if_neg hpos2dev, ← hj]
  have hms_lb : 0 < x - dev + j := by linarith
  have hms_ub : x - dev + j < 2 ^ 43 := by
    have hdevx : dev ≤ x := by linarith
    have : x - dev + j < x + dev := by linarith
    have h243 : (2 : Int) ^ 43 = 2 ^ 42 + 2 ^ 42 := by norm_num
    linarith
  have hwrapms : wrap64 ((x - dev + j) * millisecond) = (x - dev + j) * millisecond := by
    apply wrap64_eq_self
    · have hnn : (0 : Int) ≤ (x - dev + j) * millisecond := by
        rw [hmil]
        nlinarith
      have : -((2 : Int) ^ 63) ≤ 0 := by norm_num
      linarith
    · rw [hmil]
      have h63 : (2 : Int) ^ 43 * 1000000 < 2 ^ 63 := by norm_num
      nlinarith
  refine ⟨x - dev + j, ?_, by linarith, by linarith⟩
  show (match ApplyJitter (wrap64 (d * shl64 1 n)) draw with
    | none => none
    | some ms => some (wrap64 (ms * millisecond))) = some ((x - dev + j) * millisecond)
  rw [hwrapx, happ]
  show some (wrap64 ((x - dev + j) * millisecond)) = some ((x - dev + j) * millisecond)
  rw [hwrapms]

/-- Witness for C8 (amended): base delay 100, attempt 0, an arbitrary draw. -/
theorem jitter_delay_within_quarter_bounds_witness :
    ∃ ms : Int,
      ExponentialJitterBackoffDelay 0 100 7 = some (ms * millisecond) ∧
      3 * (100 * 2 ^ 0) ≤ 4 * ms ∧ 4 * ms < 5 * (100 * 2 ^ 0) :=
  jitter_delay_within_quarter_bounds 100 0 7 (by norm_num) (by norm_num)

/-- C8 counterexample: at base delay 1 and attempt 0 the scaled delay is 1,
its truncated deviation is 0, and the strategy panics in `rand.Intn(0)`:
no delay in `[0.75·1·2^0, 1.25·1·2^0)` ms — or any delay at all — is
returned. -/
theorem jitter_panics_on_small_input :
    ExponentialJitterBackoffDelay 0 1 0 = none ∧
    ∀ ms : Int, ExponentialJitterBackoffDelay 0 1 0 ≠ some ms := by
  have h0 : ExponentialJitterBackoffDelay 0 1 0 = none := rfl
  refine ⟨h0, fun ms h => ?_⟩
  rw [h0] at h
  cases h

end EstafetteFoundation
